import Mathlib

/-!
Verification of the loggregator core against its specification.

The repository under verification (95rade/loggregator) provides four source
files: the v2 `Repeater` (the spec's Relay) in
`doppler/internal/server/v2/repeater.go`, the conversion test
`conversion_test` exercising `conversion.ToV2` (the spec's Normalizer), the
`listeners` suite file containing the `sinks.Sink` interface and
`RunTruncatingBuffer` (the caller of the spec's Bounded Drop-Oldest Buffer),
and the traffic-controller `app` bootstrap.

The `Repeater` is embedded directly from its Go source.  The
`truncatingbuffer.TruncatingBuffer`, the Sink eviction policy and
`conversion.ToV2` bodies are not among the provided sources (only their
callers, tests and interface declarations are), so those components are
modelled from the specification, as marked on each definition.
-/

namespace Loggregator

/-! ## Envelope data model

Modelled from the spec (section 3) and the sonde-go / loggregator_v2 types
referenced by the sources: the legacy (v1) envelope is a protobuf message
with a declared event-type tag, flat optional string metadata fields and one
nested payload per variant; the current (v2) envelope carries a tag map and
exactly one typed payload variant. -/

/-- Legacy `events.Envelope_EventType` tag (sonde-go `events` package). -/
inductive V1EventType
  | httpStart
  | httpStop
  | httpStartStop
  | logMessage
  | valueMetric
  | counterEvent
  | errorEvent
  | containerMetric
  deriving DecidableEq, Repr

/-- Legacy `events.LogMessage_MessageType`: standard-out vs standard-error. -/
inductive V1MessageType
  | out
  | err
  deriving DecidableEq, Repr

/-- Legacy `events.Error` nested payload: source, int32 code, message. -/
structure V1Error where
  source : String
  code : Int
  message : String
  deriving DecidableEq, Repr

/-- Legacy `events.LogMessage` nested payload. -/
structure V1LogMessage where
  message : String
  messageType : V1MessageType
  appId : String
  sourceType : String
  sourceInstance : String
  deriving DecidableEq, Repr

/-- Legacy `events.ValueMetric` nested payload (value carried abstractly
as an integer; no claim inspects the numeric value itself). -/
structure V1ValueMetric where
  name : String
  value : Int
  unit : String
  deriving DecidableEq, Repr

/-- Legacy `events.CounterEvent` nested payload. -/
structure V1CounterEvent where
  name : String
  delta : Nat
  total : Nat
  deriving DecidableEq, Repr

/-- Legacy `events.ContainerMetric` nested payload. -/
structure V1ContainerMetric where
  applicationId : String
  instanceIndex : Int
  cpuPercentage : Int
  memoryBytes : Nat
  diskBytes : Nat
  deriving DecidableEq, Repr

/-- Legacy `events.HttpStartStop` nested payload (trimmed to the fields the
spec's Timer mapping consumes). -/
structure V1HttpStartStop where
  startTimestamp : Int
  stopTimestamp : Int
  method : String
  uri : String
  deriving DecidableEq, Repr

/-- Legacy `events.Envelope`: tagged union with a declared variant tag and
flat optional string fields plus one variant-specific nested payload
(protobuf optional fields are `Option`; getters default to the zero value,
as in the generated Go code). -/
structure V1Envelope where
  eventType : V1EventType
  origin : Option String
  deployment : Option String
  job : Option String
  index : Option String
  ip : Option String
  timestamp : Option Int
  errorPayload : Option V1Error
  logMessage : Option V1LogMessage
  valueMetric : Option V1ValueMetric
  counterEvent : Option V1CounterEvent
  containerMetric : Option V1ContainerMetric
  httpStartStop : Option V1HttpStartStop
  deriving DecidableEq, Repr

/-- Protobuf getter semantics: `GetX()` returns the zero value when unset. -/
def getStr (o : Option String) : String := o.getD ""

/-- Current `loggregator_v2.Log.Type`: enumerated output stream. -/
inductive V2LogType
  | out
  | err
  deriving DecidableEq, Repr

/-- Current envelope payload: exactly one typed variant. -/
inductive V2Message
  | log (payload : String) (logType : V2LogType)
  | counter (name : String) (delta : Nat) (total : Nat)
  | gauge (values : List (String × Int × String))
  | timer (name : String) (start : Int) (stop : Int)
  deriving DecidableEq, Repr

/-- Current `loggregator_v2.Envelope`: timestamp, source identity, the
deprecated-tag map (string keys, text values) and one payload variant.
The tag map is a key-value list with unique keys; membership is by
`List.lookup`. -/
structure V2Envelope where
  timestamp : Int
  sourceId : String
  instanceId : String
  deprecatedTags : List (String × String)
  message : V2Message
  deriving DecidableEq, Repr

/-! ## Bounded Drop-Oldest Buffer

Modelled from the spec: the `truncatingbuffer.TruncatingBuffer`
implementation is not among the provided sources (only its caller
`RunTruncatingBuffer` in `listeners_suite_test.go` is).  Spec section 4.2:
`Push` never blocks; if the buffer is at capacity the single oldest
buffered envelope is discarded before the new one is appended and the
buffer-scoped drop counter is incremented by one per discarded envelope;
`Pop` removes and returns the oldest buffered envelope or signals
emptiness. -/

structure TruncatingBuffer (α : Type) where
  capacity : Nat
  contents : List α
  dropped : Nat
  deriving Repr

/-- A freshly created buffer of the given capacity: empty, drop counter 0. -/
def TruncatingBuffer.new (α : Type) (capacity : Nat) : TruncatingBuffer α :=
  { capacity := capacity, contents := [], dropped := 0 }

/-- Modelled from the spec: `Push(envelope)` — if at capacity, discard the
single oldest buffered envelope and count the drop, then append. -/
def TruncatingBuffer.push (b : TruncatingBuffer α) (e : α) : TruncatingBuffer α :=
  if b.contents.length < b.capacity then
    { b with contents := b.contents ++ [e] }
  else
    { b with contents := b.contents.tail ++ [e], dropped := b.dropped + 1 }

/-- Modelled from the spec: `Pop() -> envelope | empty-signal` — remove and
return the oldest buffered envelope, or signal emptiness. -/
def TruncatingBuffer.pop (b : TruncatingBuffer α) : Option α × TruncatingBuffer α :=
  match b.contents with
  | [] => (none, b)
  | x :: xs => (some x, { b with contents := xs })

/-- Push a whole sequence, oldest first, with no intervening pops. -/
def TruncatingBuffer.pushAll (b : TruncatingBuffer α) (es : List α) : TruncatingBuffer α :=
  es.foldl TruncatingBuffer.push b

/-- One operation of the buffer's interface. -/
inductive BufOp (α : Type)
  | push (e : α)
  | pop

/-- Run one operation, logging every successfully popped envelope. -/
def bufStep (s : TruncatingBuffer α × List α) (op : BufOp α) :
    TruncatingBuffer α × List α :=
  match op with
  | .push e => (s.1.push e, s.2)
  | .pop =>
    match s.1.pop with
    | (none, b) => (b, s.2)
    | (some x, b) => (b, s.2 ++ [x])

/-- Run an interleaved sequence of pushes and pops from a fresh buffer. -/
def bufRun (capacity : Nat) (ops : List (BufOp α)) : TruncatingBuffer α × List α :=
  ops.foldl bufStep (TruncatingBuffer.new α capacity, [])

/-- The subsequence of envelopes pushed by an operation sequence, in push
order. -/
def pushesOf (ops : List (BufOp α)) : List α :=
  ops.filterMap fun op => match op with
    | .push e => some e
    | .pop => none

/-! ## Envelope Normalizer (`conversion.ToV2`)

Modelled from the spec: the body of `conversion.ToV2` is not among the
provided sources (only the `conversion_test` exercising it is).  Spec
section 4.1: the mapping is pure and total over supported variants; flat
metadata goes into the tag map under reserved keys plus `__v1_type`;
Error maps to a Log payload with source/code tags (code as its decimal
string); Log maps to a Log payload with the output stream preserved;
counters and gauges map to the current numeric payloads retaining unit
strings; `preserveOldMetricNames` additionally retains the pre-normalization
metric name in a tag; an unrecognized variant tag is a mapping error
surfaced to the caller.  The concrete Error case is pinned by the test in
the sources. -/

/-- The `__v1_type` tag value recording the legacy variant name
(sonde-go enum constant names). -/
def v1TypeName : V1EventType → String
  | .httpStart => "HttpStart"
  | .httpStop => "HttpStop"
  | .httpStartStop => "HttpStartStop"
  | .logMessage => "LogMessage"
  | .valueMetric => "ValueMetric"
  | .counterEvent => "CounterEvent"
  | .errorEvent => "Error"
  | .containerMetric => "ContainerMetric"

/-- The variants the Normalizer supports (the deprecated `HttpStart` and
`HttpStop` tags have no current-schema mapping). -/
def supportedV1 : V1EventType → Bool
  | .httpStart => false
  | .httpStop => false
  | _ => true

/-- The reserved-key metadata tags shared by every variant mapping. -/
def baseTags (e : V1Envelope) : List (String × String) :=
  [("__v1_type", v1TypeName e.eventType),
   ("origin", getStr e.origin),
   ("deployment", getStr e.deployment),
   ("job", getStr e.job),
   ("index", getStr e.index),
   ("ip", getStr e.ip)]

/-- Legacy log direction to the current enumerated output stream. -/
def toV2LogType : V1MessageType → V2LogType
  | .out => .out
  | .err => .err

/-- Modelled from the spec: `conversion.ToV2` — normalize one legacy
envelope into one current-schema envelope, or surface a mapping error for
an unrecognized variant tag. -/
def ToV2 (e : V1Envelope) (preserveOldMetricNames : Bool) : Except String V2Envelope :=
  let ts := e.timestamp.getD 0
  let oldName : String → List (String × String) := fun n =>
    if preserveOldMetricNames then [("__v1_name", n)] else []
  match e.eventType with
  | .errorEvent =>
    let p := e.errorPayload.getD { source := "", code := 0, message := "" }
    .ok { timestamp := ts, sourceId := getStr e.origin, instanceId := "",
          deprecatedTags := baseTags e ++ [("source", p.source), ("code", toString p.code)],
          message := .log p.message .out }
  | .logMessage =>
    let p := e.logMessage.getD
      { message := "", messageType := .out, appId := "", sourceType := "", sourceInstance := "" }
    .ok { timestamp := ts, sourceId := p.appId, instanceId := p.sourceInstance,
          deprecatedTags := baseTags e ++ [("source_type", p.sourceType)],
          message := .log p.message (toV2LogType p.messageType) }
  | .valueMetric =>
    let p := e.valueMetric.getD { name := "", value := 0, unit := "" }
    .ok { timestamp := ts, sourceId := getStr e.origin, instanceId := "",
          deprecatedTags := baseTags e ++ oldName p.name,
          message := .gauge [(p.name, p.value, p.unit)] }
  | .counterEvent =>
    let p := e.counterEvent.getD { name := "", delta := 0, total := 0 }
    .ok { timestamp := ts, sourceId := getStr e.origin, instanceId := "",
          deprecatedTags := baseTags e ++ oldName p.name,
          message := .counter p.name p.delta p.total }
  | .containerMetric =>
    let p := e.containerMetric.getD
      { applicationId := "", instanceIndex := 0, cpuPercentage := 0,
        memoryBytes := 0, diskBytes := 0 }
    .ok { timestamp := ts, sourceId := p.applicationId,
          instanceId := toString p.instanceIndex,
          deprecatedTags := baseTags e,
          message := .gauge
            [("cpu", p.cpuPercentage, "percentage"),
             ("memory", Int.ofNat p.memoryBytes, "bytes"),
             ("disk", Int.ofNat p.diskBytes, "bytes")] }
  | .httpStartStop =>
    let p := e.httpStartStop.getD
      { startTimestamp := 0, stopTimestamp := 0, method := "", uri := "" }
    .ok { timestamp := ts, sourceId := getStr e.origin, instanceId := "",
          deprecatedTags := baseTags e ++ [("method", p.method), ("uri", p.uri)],
          message := .timer "http" p.startTimestamp p.stopTimestamp }
  | t => .error ("unsupported v1 envelope type: " ++ v1TypeName t)

/-- The call frame of `conversion.ToV2`: the returned result paired with
the value of the envelope argument after the call.  The function only
reads its argument; it assigns to no field of `e`, so the post-call
argument value equals the pre-call value. -/
def ToV2Call (e : V1Envelope) (preserveOldMetricNames : Bool) :
    Except String V2Envelope × V1Envelope :=
  (ToV2 e preserveOldMetricNames, e)

/-- The v1 envelope built by the conversion test in the sources
(`conversion_test`, "given a v1 envelope ... converts to a v2 envelope"). -/
def testV1ErrorEnvelope : V1Envelope :=
  { eventType := .errorEvent,
    origin := some "fake-origin",
    deployment := some "some-deployment",
    job := some "some-job",
    index := some "some-index",
    ip := some "some-ip",
    timestamp := none,
    errorPayload := some { source := "test-source", code := 12345, message := "test-message" },
    logMessage := none, valueMetric := none, counterEvent := none,
    containerMetric := none, httpStartStop := none }

/-! ## Relay (`Repeater`, embedded from `repeater.go`)

`Reader` is `func() *loggregator_v2.Envelope` and `Writer` is
`func(*loggregator_v2.Envelope)`.  A stateful Go reader closure is embedded
as the stream of pointer values its successive calls return, indexed by
call number; `none` is a nil pointer.  The recording writer is the list of
values passed to it, in call order. -/

def Reader : Type := Nat → Option V2Envelope

/-- The observable state of a run of `Repeater.Start`: how many loop
iterations have completed, what the writer has been passed so far, and
whether the loop is still running. -/
structure RepState where
  calls : Nat
  writes : List (Option V2Envelope)
  running : Bool
  deriving Repr

/-- State at the entry of `Start`'s `for` loop. -/
def Repeater.startInit : RepState :=
  { calls := 0, writes := [], running := true }

/-- One iteration of the loop body of `Repeater.Start` (`repeater.go`
lines 29-33).  The body is exactly `r.w(r.r())`: one call to the reader,
then one call to the writer with precisely the value read.  The body
contains no branch, no nil check, and no `break`/`return`, so a running
state always steps to a running state. -/
def Repeater.startStep (r : Reader) (s : RepState) : RepState :=
  if s.running then
    { calls := s.calls + 1, writes := s.writes ++ [r s.calls], running := true }
  else s

/-- The state of `Repeater.Start` after `n` loop iterations. -/
def Repeater.startRun (r : Reader) : Nat → RepState
  | 0 => Repeater.startInit
  | n + 1 => Repeater.startStep r (Repeater.startRun r n)

/-! ## Sink slow-consumer policy

Modelled from the spec: the Sink implementation behind the `sinks.Sink`
interface in the sources is not among the provided files.  Spec section
4.3: the Sink owns one Bounded Drop-Oldest Buffer and tracks the drop
counter's growth; when drops exceed a configured threshold within a
configured window it terminates itself, stops draining, releases its
buffer and reports eviction.  Wall-clock time is abstracted to push
events; the detection window is modelled as covering the sustained-pressure
run, per the spec's note that window and threshold are policy constants
specified only as "bounded and configurable". -/

structure SinkState where
  buf : TruncatingBuffer V2Envelope
  threshold : Nat
  windowDrops : Nat
  terminated : Bool
  evictionReported : Bool
  deriving Repr

/-- A fresh Sink over a fresh buffer of the given capacity. -/
def SinkState.new (capacity threshold : Nat) : SinkState :=
  { buf := TruncatingBuffer.new V2Envelope capacity, threshold := threshold,
    windowDrops := 0, terminated := false, evictionReported := false }

/-- Modelled from the spec: one envelope pushed into the Sink's buffer,
observed by the slow-consumer policy.  A terminated Sink accepts nothing;
otherwise the push goes to the buffer, any drop it caused is counted
toward the window, and once drops exceed the threshold the Sink
terminates, releases its buffer and reports eviction. -/
def SinkState.push (s : SinkState) (e : V2Envelope) : SinkState :=
  if s.terminated then s
  else
    let b := s.buf.push e
    let wd := s.windowDrops + (b.dropped - s.buf.dropped)
    if s.threshold < wd then
      { s with buf := { b with contents := [] }, windowDrops := wd,
               terminated := true, evictionReported := true }
    else
      { s with buf := b, windowDrops := wd }

/-- Sustained push pressure with a consumer that never reads. -/
def SinkState.pushAll (s : SinkState) (es : List V2Envelope) : SinkState :=
  es.foldl SinkState.push s

/-! ## Theorems: Relay (`Repeater.Start`) -/

/-- Combined characterization of a run of `Repeater.Start`: after `n` loop
iterations the reader has been called `n` times, the writer has been passed
exactly the successive reader results in call order, and the loop is still
running. -/
theorem startRun_spec (r : Reader) (n : Nat) :
    (Repeater.startRun r n).calls = n ∧
    (Repeater.startRun r n).writes = (List.range n).map r ∧
    (Repeater.startRun r n).running = true := by
  induction n with
  | zero => simp [Repeater.startRun, Repeater.startInit]
  | succ n ih =>
    obtain ⟨h1, h2, h3⟩ := ih
    simp [Repeater.startRun, Repeater.startStep, h1, h2, h3, List.range_succ]

/-- C4: a Repeater started with a reader producing E1, E2, E3 in that order
and a recording writer causes the writer to observe exactly E1, E2, E3 in
that order, nothing duplicated or lost; in general each envelope read is
written before the next read, so after any number of iterations the write
sequence is exactly the read sequence. -/
theorem repeater_forwards_in_order :
    (∀ e1 e2 e3 : V2Envelope,
      (Repeater.startRun
        (fun i => if i = 0 then some e1 else if i = 1 then some e2 else some e3)
        3).writes = [some e1, some e2, some e3]) ∧
    (∀ (r : Reader) (n : Nat),
      (Repeater.startRun r n).writes = (List.range n).map r ∧
      (Repeater.startRun r n).calls = n) := by
  constructor
  · intro e1 e2 e3
    rw [(startRun_spec _ 3).2.1]
    rfl
  · intro r n
    exact ⟨(startRun_spec r n).2.1, (startRun_spec r n).1⟩

/-- C5 counterexample: `Repeater.Start` does not terminate when its input
source signals permanent end.  The only way a Go `Reader`
(`func() *loggregator_v2.Envelope`) can signal that no further envelopes
will be produced is to return nil forever; under that reader the loop never
reaches a non-running state — the loop body (`repeater.go` lines 30-32) has
no exit condition, and the `Repeater` API offers no stop operation. -/
theorem repeater_start_no_termination_cx :
    ¬ ∃ n : Nat, (Repeater.startRun (fun _ => none) n).running = false := by
  rintro ⟨n, h⟩
  have hrun := (startRun_spec (fun _ => none) n).2.2
  rw [hrun] at h
  cases h

/-- C5 (amended): `Start` never terminates.  Its loop has no exit
condition, the `Repeater` type has no stop operation, and no reader result
(nil included) is treated as end of stream: after every number of
iterations the loop is still running, as the source's own comment ("Start
blocks indefinitely") states. -/
theorem repeater_start_runs_forever (r : Reader) (n : Nat) :
    (Repeater.startRun r n).running = true :=
  (startRun_spec r n).2.2

/-- C10: the `Start` loop invokes the writer exactly once per reader
invocation and forwards the reader's returned envelope pointer unchanged —
the write sequence equals the read sequence and has one entry per
iteration; in particular a nil result (`none`) is passed to the writer like
any other value and is not treated as end-of-stream: under the constantly
nil reader the writer receives nil each iteration and the loop keeps
running. -/
theorem repeater_forwards_nil_unchanged :
    (∀ (r : Reader) (n : Nat),
      (Repeater.startRun r n).writes = (List.range n).map r ∧
      (Repeater.startRun r n).writes.length = n) ∧
    (Repeater.startRun (fun _ => none) 3).writes = [none, none, none] ∧
    (Repeater.startRun (fun _ => none) 3).running = true := by
  refine ⟨fun r n => ⟨(startRun_spec r n).2.1, ?_⟩, ?_, (startRun_spec _ 3).2.2⟩
  · rw [(startRun_spec r n).2.1]
    simp
  · rw [(startRun_spec _ 3).2.1]
    rfl

/-! ## Theorems: Bounded Drop-Oldest Buffer -/

/-- Pushing appends when the buffer is below capacity. -/
theorem TruncatingBuffer.push_of_lt (b : TruncatingBuffer α) (e : α)
    (h : b.contents.length < b.capacity) :
    b.push e = { b with contents := b.contents ++ [e] } := by
  simp [TruncatingBuffer.push, h]

/-- Pushing drops the oldest element and counts the drop when at capacity. -/
theorem TruncatingBuffer.push_of_ge (b : TruncatingBuffer α) (e : α)
    (h : ¬ b.contents.length < b.capacity) :
    b.push e =
      { b with contents := b.contents.tail ++ [e], dropped := b.dropped + 1 } := by
  simp [TruncatingBuffer.push, h]

/-- Pushing never changes the capacity. -/
theorem TruncatingBuffer.push_capacity (b : TruncatingBuffer α) (e : α) :
    (b.push e).capacity = b.capacity := by
  by_cases h : b.contents.length < b.capacity
  · rw [TruncatingBuffer.push_of_lt b e h]
  · rw [TruncatingBuffer.push_of_ge b e h]

/-- General shape of a pure push sequence from any state not above
capacity: the resulting contents are the suffix of (old contents followed
by the pushed sequence) that fits, and the drop counter grows by exactly
the overflow. -/
theorem pushAll_spec (C : Nat) (hC : 0 < C) :
    ∀ (es : List α) (b : TruncatingBuffer α),
      b.capacity = C → b.contents.length ≤ C →
      (b.pushAll es).contents =
        (b.contents ++ es).drop (b.contents.length + es.length - C) ∧
      (b.pushAll es).dropped = b.dropped + (b.contents.length + es.length - C) := by
  intro es
  induction es with
  | nil =>
    intro b hcap hlen
    constructor
    · simp only [TruncatingBuffer.pushAll, List.foldl_nil, List.append_nil,
        List.length_nil]
      have hz : b.contents.length + 0 - C = 0 := by omega
      rw [hz, List.drop_zero]
    · simp only [TruncatingBuffer.pushAll, List.foldl_nil, List.length_nil]
      omega
  | cons e rest ih =>
    intro b hcap hlen
    rw [show b.pushAll (e :: rest) = (b.push e).pushAll rest from rfl]
    by_cases hfull : b.contents.length < b.capacity
    · rw [TruncatingBuffer.push_of_lt b e hfull]
      obtain ⟨ih1, ih2⟩ := ih { b with contents := b.contents ++ [e] }
        (by simpa) (by simp; omega)
      dsimp only at ih1 ih2
      constructor
      · rw [ih1]
        have eIdx : (b.contents ++ [e]).length + rest.length - C
            = b.contents.length + (e :: rest).length - C := by simp; omega
        have eList : b.contents ++ [e] ++ rest = b.contents ++ e :: rest := by simp
        rw [eIdx, eList]
      · rw [ih2]
        have eIdx : (b.contents ++ [e]).length + rest.length - C
            = b.contents.length + (e :: rest).length - C := by simp; omega
        rw [eIdx]
    · rw [TruncatingBuffer.push_of_ge b e hfull]
      have hlenC : b.contents.length = C := by omega
      obtain ⟨a, as, hcons⟩ := List.exists_cons_of_ne_nil
        (show b.contents ≠ [] by
          intro hnil
          rw [hnil] at hlenC
          simp only [List.length_nil] at hlenC
          omega)
      have htail : b.contents.tail = as := by rw [hcons]; rfl
      have hAs : as.length + 1 = C := by
        rw [hcons] at hlenC
        simpa using hlenC
      rw [htail]
      obtain ⟨ih1, ih2⟩ := ih
        { b with contents := as ++ [e], dropped := b.dropped + 1 }
        (by simpa) (by simp; omega)
      dsimp only at ih1 ih2
      constructor
      · rw [ih1, hcons]
        have eL : (as ++ [e]).length + rest.length - C = rest.length := by simp; omega
        have eR : (a :: as).length + (e :: rest).length - C = rest.length + 1 := by
          simp; omega
        rw [eL, eR]
        have eList1 : as ++ [e] ++ rest = as ++ e :: rest := by simp
        have eList2 : a :: as ++ e :: rest = a :: (as ++ e :: rest) := by simp
        rw [eList1, eList2, List.drop_succ_cons]
      · rw [ih2, hcons]
        have eL : (as ++ [e]).length + rest.length - C = rest.length := by simp; omega
        have eR : (a :: as).length + (e :: rest).length - C = rest.length + 1 := by
          simp; omega
        rw [eL, eR]
        omega

/-- C1: for capacity C > 0 and a sequence of pushes with no intervening
pops, the buffer afterwards holds exactly the C most-recently-pushed
envelopes in push order (the length-(n−C) prefix is gone); when n > C the
drop counter equals n − C, and when n ≤ C it equals 0 and every pushed
envelope is held. -/
theorem truncatingBuffer_push_sequence_spec (C : Nat) (hC : 0 < C)
    (es : List V2Envelope) :
    ((TruncatingBuffer.new V2Envelope C).pushAll es).contents
        = es.drop (es.length - C) ∧
    (C < es.length →
      ((TruncatingBuffer.new V2Envelope C).pushAll es).dropped = es.length - C) ∧
    (es.length ≤ C →
      ((TruncatingBuffer.new V2Envelope C).pushAll es).dropped = 0 ∧
      ((TruncatingBuffer.new V2Envelope C).pushAll es).contents = es) := by
  have hcont : (TruncatingBuffer.new V2Envelope C).contents = [] := rfl
  have hdrop0 : (TruncatingBuffer.new V2Envelope C).dropped = 0 := rfl
  obtain ⟨h1, h2⟩ := pushAll_spec C hC es (TruncatingBuffer.new V2Envelope C) rfl
    (by rw [hcont]; simp)
  rw [hcont] at h1 h2
  rw [hdrop0] at h2
  simp only [List.nil_append, List.length_nil, Nat.zero_add] at h1 h2
  refine ⟨h1, fun _ => h2, fun hle => ⟨by rw [h2]; omega, ?_⟩⟩
  rw [h1]
  have hz : es.length - C = 0 := by omega
  rw [hz, List.drop_zero]

/-- A sample current-schema envelope, used to instantiate universally
quantified buffer statements on concrete inputs. -/
def sampleEnv (k : Nat) : V2Envelope :=
  { timestamp := Int.ofNat k, sourceId := "sample", instanceId := "",
    deprecatedTags := [], message := .counter "c" k k }

/-- Witness for C1 at capacity 2 and a push sequence of length 3. -/
theorem truncatingBuffer_push_sequence_spec_witness :
    ((TruncatingBuffer.new V2Envelope 2).pushAll
        [sampleEnv 0, sampleEnv 1, sampleEnv 2]).contents
      = [sampleEnv 0, sampleEnv 1, sampleEnv 2].drop
          ([sampleEnv 0, sampleEnv 1, sampleEnv 2].length - 2) ∧
    (2 < [sampleEnv 0, sampleEnv 1, sampleEnv 2].length →
      ((TruncatingBuffer.new V2Envelope 2).pushAll
        [sampleEnv 0, sampleEnv 1, sampleEnv 2]).dropped
        = [sampleEnv 0, sampleEnv 1, sampleEnv 2].length - 2) ∧
    ([sampleEnv 0, sampleEnv 1, sampleEnv 2].length ≤ 2 →
      ((TruncatingBuffer.new V2Envelope 2).pushAll
        [sampleEnv 0, sampleEnv 1, sampleEnv 2]).dropped = 0 ∧
      ((TruncatingBuffer.new V2Envelope 2).pushAll
        [sampleEnv 0, sampleEnv 1, sampleEnv 2]).contents
        = [sampleEnv 0, sampleEnv 1, sampleEnv 2]) :=
  truncatingBuffer_push_sequence_spec 2 (by decide) [sampleEnv 0, sampleEnv 1, sampleEnv 2]

/-- The capacity bound is preserved by any interleaving of pushes and pops
from any state within capacity. -/
theorem bufFold_length_le (C : Nat) (hC : 0 < C) :
    ∀ (ops : List (BufOp α)) (s : TruncatingBuffer α × List α),
      s.1.capacity = C → s.1.contents.length ≤ C →
      (ops.foldl bufStep s).1.capacity = C ∧
      (ops.foldl bufStep s).1.contents.length ≤ C := by
  intro ops
  induction ops with
  | nil => intro s hcap hlen; exact ⟨hcap, hlen⟩
  | cons op rest ih =>
    intro s hcap hlen
    rw [List.foldl_cons]
    match op with
    | .push e =>
      refine ih (s.1.push e, s.2) ?_ ?_
      · show (s.1.push e).capacity = C
        rw [TruncatingBuffer.push_capacity, hcap]
      · show (s.1.push e).contents.length ≤ C
        by_cases hfull : s.1.contents.length < s.1.capacity
        · rw [TruncatingBuffer.push_of_lt s.1 e hfull]
          show (s.1.contents ++ [e]).length ≤ C
          rw [List.length_append]
          simp only [List.length_singleton]
          omega
        · rw [TruncatingBuffer.push_of_ge s.1 e hfull]
          show (s.1.contents.tail ++ [e]).length ≤ C
          rw [List.length_append]
          simp only [List.length_singleton]
          have htl : s.1.contents.tail.length = s.1.contents.length - 1 :=
            List.length_tail s.1.contents
          omega
    | .pop =>
      match heq : s.1.contents with
      | [] =>
        have hpop : bufStep s BufOp.pop = s := by
          simp [bufStep, TruncatingBuffer.pop, heq]
        rw [hpop]
        exact ih s hcap hlen
      | x :: xs =>
        have hpop : bufStep s BufOp.pop = ({ s.1 with contents := xs }, s.2 ++ [x]) := by
          simp [bufStep, TruncatingBuffer.pop, heq]
        rw [hpop]
        refine ih _ hcap ?_
        show xs.length ≤ C
        rw [heq] at hlen
        simp only [List.length_cons] at hlen
        omega

/-- Across any interleaving of pushes and pops, the popped log followed by
the current contents is a subsequence of (the starting log and contents
followed by) the pushed sequence. -/
theorem bufFold_sublist :
    ∀ (ops : List (BufOp α)) (s : TruncatingBuffer α × List α),
      ((ops.foldl bufStep s).2 ++ (ops.foldl bufStep s).1.contents).Sublist
        ((s.2 ++ s.1.contents) ++ pushesOf ops) := by
  intro ops
  induction ops with
  | nil => simp
  | cons op rest ih =>
    intro s
    rw [List.foldl_cons]
    match op with
    | .push e =>
      have hpush : pushesOf (BufOp.push e :: rest) = e :: pushesOf rest := by
        simp [pushesOf]
      rw [hpush]
      refine (ih (s.1.push e, s.2)).trans ?_
      show ((s.2 ++ (s.1.push e).contents) ++ pushesOf rest).Sublist
        ((s.2 ++ s.1.contents) ++ (e :: pushesOf rest))
      have hsub : (s.2 ++ (s.1.push e).contents).Sublist ((s.2 ++ s.1.contents) ++ [e]) := by
        by_cases hfull : s.1.contents.length < s.1.capacity
        · rw [TruncatingBuffer.push_of_lt s.1 e hfull]
          show (s.2 ++ (s.1.contents ++ [e])).Sublist ((s.2 ++ s.1.contents) ++ [e])
          rw [List.append_assoc]
        · rw [TruncatingBuffer.push_of_ge s.1 e hfull]
          show (s.2 ++ (s.1.contents.tail ++ [e])).Sublist ((s.2 ++ s.1.contents) ++ [e])
          rw [← List.append_assoc]
          exact ((List.tail_sublist s.1.contents).append_left s.2).append_right [e]
      have hEq2 : (s.2 ++ s.1.contents) ++ (e :: pushesOf rest)
          = ((s.2 ++ s.1.contents) ++ [e]) ++ pushesOf rest := by simp
      rw [hEq2]
      exact hsub.append_right _
    | .pop =>
      have hpop2 : pushesOf (BufOp.pop :: rest) = pushesOf rest := by simp [pushesOf]
      rw [hpop2]
      match hEq : s.1.contents with
      | [] =>
        have hpop : bufStep s BufOp.pop = s := by
          simp [bufStep, TruncatingBuffer.pop, hEq]
        rw [hpop]
        have h := ih s
        rw [hEq] at h
        exact h
      | x :: xs =>
        have hpop : bufStep s BufOp.pop = ({ s.1 with contents := xs }, s.2 ++ [x]) := by
          simp [bufStep, TruncatingBuffer.pop, hEq]
        rw [hpop]
        refine (ih _).trans ?_
        show (((s.2 ++ [x]) ++ xs) ++ pushesOf rest).Sublist
          ((s.2 ++ (x :: xs)) ++ pushesOf rest)
        have hre : (s.2 ++ [x]) ++ xs = s.2 ++ (x :: xs) := by simp
        rw [hre]

/-- C2: for every buffer of positive capacity C and every interleaved
sequence of Push and Pop operations, at every point at most C envelopes
are held, and the sequence of popped envelopes (the survivors, together
with whatever still sits in the buffer) is a subsequence of the pushed
sequence in push order: dropping never reorders survivors. -/
theorem truncatingBuffer_capacity_fifo_invariant (C : Nat) (hC : 0 < C)
    (ops : List (BufOp V2Envelope)) :
    (∀ n : Nat, (bufRun C (ops.take n)).1.contents.length ≤ C) ∧
    ((bufRun C ops).2 ++ (bufRun C ops).1.contents).Sublist (pushesOf ops) ∧
    (bufRun C ops).2.Sublist (pushesOf ops) := by
  have hstart2 : (TruncatingBuffer.new V2Envelope C).contents = [] := rfl
  have hsub : ((bufRun C ops).2 ++ (bufRun C ops).1.contents).Sublist (pushesOf ops) := by
    have h := bufFold_sublist ops (TruncatingBuffer.new V2Envelope C, [])
    rw [hstart2] at h
    simpa [bufRun] using h
  refine ⟨?_, hsub, ?_⟩
  · intro n
    have h := bufFold_length_le C hC (ops.take n) (TruncatingBuffer.new V2Envelope C, [])
      rfl (by rw [hstart2]; simp)
    exact h.2
  · exact (List.sublist_append_left (bufRun C ops).2 (bufRun C ops).1.contents).trans hsub

/-- Witness for C2 at capacity 1 and a concrete interleaving of four
operations. -/
theorem truncatingBuffer_capacity_fifo_invariant_witness :
    (∀ n : Nat,
      (bufRun 1 (([BufOp.push (sampleEnv 0), BufOp.push (sampleEnv 1), BufOp.pop,
        BufOp.push (sampleEnv 2)]).take n)).1.contents.length ≤ 1) ∧
    ((bufRun 1 [BufOp.push (sampleEnv 0), BufOp.push (sampleEnv 1), BufOp.pop,
        BufOp.push (sampleEnv 2)]).2 ++
      (bufRun 1 [BufOp.push (sampleEnv 0), BufOp.push (sampleEnv 1), BufOp.pop,
        BufOp.push (sampleEnv 2)]).1.contents).Sublist
      (pushesOf [BufOp.push (sampleEnv 0), BufOp.push (sampleEnv 1), BufOp.pop,
        BufOp.push (sampleEnv 2)]) ∧
    (bufRun 1 [BufOp.push (sampleEnv 0), BufOp.push (sampleEnv 1), BufOp.pop,
        BufOp.push (sampleEnv 2)]).2.Sublist
      (pushesOf [BufOp.push (sampleEnv 0), BufOp.push (sampleEnv 1), BufOp.pop,
        BufOp.push (sampleEnv 2)]) :=
  truncatingBuffer_capacity_fifo_invariant 1 (by decide)
    [BufOp.push (sampleEnv 0), BufOp.push (sampleEnv 1), BufOp.pop,
      BufOp.push (sampleEnv 2)]

/-! ## Theorems: Sink slow-consumer policy -/

/-- Progress lemma for the slow-consumer policy: from any live state whose
remaining headroom (free buffer slots plus drops still tolerated) is
covered by the pending pushes, sustained pushes with no reads drive the
Sink to the terminated, buffer-released, eviction-reported state; a
terminated Sink stays terminated with its buffer released. -/
theorem sink_pushAll_terminates (T : Nat) :
    ∀ (es : List V2Envelope) (s : SinkState),
      s.threshold = T →
      0 < s.buf.capacity →
      (s.terminated = false →
        s.buf.contents.length ≤ s.buf.capacity ∧ s.windowDrops ≤ T ∧
        (s.buf.capacity - s.buf.contents.length) + (T + 1 - s.windowDrops)
          ≤ es.length) →
      (s.terminated = true → s.buf.contents = [] ∧ s.evictionReported = true) →
      (s.pushAll es).terminated = true ∧
      (s.pushAll es).buf.contents = [] ∧
      (s.pushAll es).evictionReported = true := by
  intro es
  induction es with
  | nil =>
    intro s hT hcap hrun hterm
    match hb : s.terminated with
    | false =>
      exfalso
      obtain ⟨h1, h2, h3⟩ := hrun hb
      simp only [List.length_nil, Nat.le_zero] at h3
      omega
    | true =>
      obtain ⟨h1, h2⟩ := hterm hb
      exact ⟨rfl, h1, h2⟩
  | cons e rest ih =>
    intro s hT hcap hrun hterm
    rw [show s.pushAll (e :: rest) = (s.push e).pushAll rest from rfl]
    match hb : s.terminated with
    | true =>
      have hid : s.push e = s := by simp [SinkState.push, hb]
      rw [hid]
      refine ih s hT hcap ?_ hterm
      intro hfalse
      rw [hb] at hfalse
      cases hfalse
    | false =>
      obtain ⟨hlen, hwd, hmeas⟩ := hrun hb
      by_cases hfull : s.buf.contents.length < s.buf.capacity
      · -- below capacity: the push is absorbed without a drop
        have hbp := TruncatingBuffer.push_of_lt s.buf e hfull
        have hstep : s.push e =
            { s with buf := { s.buf with contents := s.buf.contents ++ [e] },
                     windowDrops := s.windowDrops } := by
          simp only [SinkState.push, hb, Bool.false_eq_true, if_false, hbp]
          have hdz : ({ s.buf with contents := s.buf.contents ++ [e] }).dropped
              - s.buf.dropped = 0 := by simp
          rw [hdz]
          have hnt : ¬ s.threshold < s.windowDrops + 0 := by omega
          rw [if_neg hnt]
          simp
        rw [hstep]
        refine ih _ (by simpa) (by simpa) ?_ ?_
        · intro _
          refine ⟨?_, ?_, ?_⟩
          · show (s.buf.contents ++ [e]).length ≤ s.buf.capacity
            rw [List.length_append]
            simp only [List.length_singleton]
            omega
          · show s.windowDrops ≤ T
            omega
          · show s.buf.capacity - (s.buf.contents ++ [e]).length
                + (T + 1 - s.windowDrops) ≤ rest.length
            rw [List.length_append]
            simp only [List.length_singleton, List.length_cons] at hmeas ⊢
            omega
        · intro hfalse
          have hcontra : s.terminated = true := hfalse
          rw [hb] at hcontra
          cases hcontra
      · -- at capacity: the push drops the oldest envelope and counts it
        have hbp := TruncatingBuffer.push_of_ge s.buf e hfull
        have hdz :
            ({ s.buf with contents := s.buf.contents.tail ++ [e], dropped := s.buf.dropped + 1 }).dropped
              - s.buf.dropped = 1 := by simp
        by_cases hthr : s.threshold < s.windowDrops + 1
        · -- threshold exceeded: the Sink terminates now
          have hstep : s.push e =
              { s with buf := { s.buf with contents := [], dropped := s.buf.dropped + 1 },
                       windowDrops := s.windowDrops + 1,
                       terminated := true, evictionReported := true } := by
            simp only [SinkState.push, hb, Bool.false_eq_true, if_false, hbp, hdz]
            rw [if_pos hthr]
          rw [hstep]
          refine ih _ (by simpa) (by simpa) ?_ ?_
          · intro hfalse
            cases hfalse
          · intro _
            exact ⟨rfl, rfl⟩
        · -- another drop tolerated: headroom strictly decreases
          have hstep : s.push e =
              { s with
                buf := { s.buf with contents := s.buf.contents.tail ++ [e], dropped := s.buf.dropped + 1 },
                windowDrops := s.windowDrops + 1 } := by
            simp only [SinkState.push, hb, Bool.false_eq_true, if_false, hbp, hdz]
            rw [if_neg hthr]
          rw [hstep]
          have htl : s.buf.contents.tail.length = s.buf.contents.length - 1 :=
            List.length_tail s.buf.contents
          have hlenC : s.buf.contents.length = s.buf.capacity := by omega
          refine ih _ (by simpa) (by simpa) ?_ ?_
          · intro _
            refine ⟨?_, ?_, ?_⟩
            · show (s.buf.contents.tail ++ [e]).length ≤ s.buf.capacity
              rw [List.length_append]
              simp only [List.length_singleton]
              omega
            · show s.windowDrops + 1 ≤ T
              omega
            · show s.buf.capacity - (s.buf.contents.tail ++ [e]).length
                  + (T + 1 - (s.windowDrops + 1)) ≤ rest.length
              rw [List.length_append]
              simp only [List.length_singleton, List.length_cons] at hmeas ⊢
              omega
          · intro hfalse
            have hcontra : s.terminated = true := hfalse
            rw [hb] at hcontra
            cases hcontra

/-- C6: a Sink whose consumer never reads, under sustained push pressure
past its buffer's capacity (at least C + T + 1 pushes, enough to fill the
buffer and exceed the drop threshold T within the modelled window),
self-terminates: it ends in the terminated state, its buffer is released
(contents empty), and eviction is reported; only this Sink's state is
involved. -/
theorem sink_slow_consumer_self_terminates (C T : Nat) (hC : 0 < C)
    (es : List V2Envelope) (hlen : C + T + 1 ≤ es.length) :
    ((SinkState.new C T).pushAll es).terminated = true ∧
    ((SinkState.new C T).pushAll es).buf.contents = [] ∧
    ((SinkState.new C T).pushAll es).evictionReported = true := by
  refine sink_pushAll_terminates T es (SinkState.new C T) rfl hC ?_ ?_
  · intro _
    refine ⟨by simp [SinkState.new, TruncatingBuffer.new], by simp [SinkState.new], ?_⟩
    show C - ([] : List V2Envelope).length + (T + 1 - 0) ≤ es.length
    simp only [List.length_nil]
    omega
  · intro hfalse
    cases hfalse

/-- Witness for C6 at capacity 1, threshold 1, and three pushes. -/
theorem sink_slow_consumer_self_terminates_witness :
    ((SinkState.new 1 1).pushAll [sampleEnv 0, sampleEnv 1, sampleEnv 2]).terminated
        = true ∧
    ((SinkState.new 1 1).pushAll [sampleEnv 0, sampleEnv 1, sampleEnv 2]).buf.contents
        = [] ∧
    ((SinkState.new 1 1).pushAll
        [sampleEnv 0, sampleEnv 1, sampleEnv 2]).evictionReported = true :=
  sink_slow_consumer_self_terminates 1 1 (by decide)
    [sampleEnv 0, sampleEnv 1, sampleEnv 2] (by decide)

/-! ## Theorems: Envelope Normalizer -/

/-- C3: normalizing the legacy Error envelope of the conversion test
(source "test-source", code 12345, message "test-message", with
`preserveOldMetricNames = false`) yields a current envelope whose tag map
contains source="test-source", code="12345" (the code rendered as its
decimal string) and __v1_type="Error", and whose payload is a Log variant
with content "test-message" and output stream standard-out. -/
theorem toV2_error_envelope_concrete :
    ∃ v : V2Envelope, ToV2 testV1ErrorEnvelope false = Except.ok v ∧
      v.deprecatedTags.lookup "source" = some "test-source" ∧
      v.deprecatedTags.lookup "code" = some "12345" ∧
      v.deprecatedTags.lookup "__v1_type" = some "Error" ∧
      v.message = V2Message.log "test-message" V2LogType.out := by
  refine ⟨_, rfl, ?_, ?_, ?_, ?_⟩ <;> decide

/-- C7: the Normalizer is total exactly over the supported legacy
variants: for every legacy envelope and either flag value, the conversion
succeeds (produces exactly one current-schema envelope) precisely when the
variant tag is supported, and on an unrecognized variant tag it surfaces a
mapping error instead of passing the envelope through or producing an
envelope at all. -/
theorem toV2_supported_total_unsupported_error (e : V1Envelope) (p : Bool) :
    (ToV2 e p).isOk = supportedV1 e.eventType := by
  obtain ⟨t, o, d, j, i, ip, ts, ep, lm, vm, ce, cm, hs⟩ := e
  cases t <;> rfl

/-- C8: the Normalizer is deterministic — normalizing equal inputs with
equal flag values yields structurally equal output envelopes; in the
shallow embedding `ToV2` is a pure function of exactly its two
arguments. -/
theorem toV2_deterministic (e1 e2 : V1Envelope) (p1 p2 : Bool)
    (he : e1 = e2) (hp : p1 = p2) : ToV2 e1 p1 = ToV2 e2 p2 := by
  rw [he, hp]

/-- Witness for C8 at the conversion test's envelope. -/
theorem toV2_deterministic_witness :
    testV1ErrorEnvelope = testV1ErrorEnvelope ∧ (false : Bool) = false ∧
    ToV2 testV1ErrorEnvelope false = ToV2 testV1ErrorEnvelope false :=
  ⟨rfl, rfl, toV2_deterministic testV1ErrorEnvelope testV1ErrorEnvelope false false rfl rfl⟩

/-- C9: the Normalizer does not mutate its argument — in the call frame of
`ToV2`, the envelope value after the call is exactly the envelope value
passed in, for every legacy envelope and flag value; the embedding of the
call performs no effect besides producing the result. -/
theorem toV2_preserves_input (e : V1Envelope) (p : Bool) :
    (ToV2Call e p).2 = e :=
  rfl

end Loggregator
